import Mathlib

/-!
Verification development for the Context Engine bundle-assembly pipeline.

The definitions below are a shallow embedding, translated from the Python
sources of the repository (src/context_engine/core/utils.py,
src/context_engine/commands/baseline_commands.py,
src/context_engine/commands/bundle_command.py,
src/context_engine/commands/compress_command.py and
src/context_engine/compressors/longcodezip_wrapper.py).  Text is modelled
as `List Char`, Python dictionaries as functions into `Option`, Python
exceptions as `Except`, and each `re.sub` call as an explicit left-to-right
scanner that reproduces the (backtracking) semantics of the concrete
pattern it translates.  Scanners use a fuel argument equal to the input
length; every step consumes at least one character, so the fuel never runs
out on the initial call.
-/

abbrev Chars := List Char

/-- Python ASCII whitespace, the characters matched by a regex `\s` and
stripped by `str.strip()` on ASCII input. -/
def pyWhite (c : Char) : Bool :=
  c == ' ' || c == '\t' || c == '\n' || c == '\r' || c == '\x0b' || c == '\x0c'

/-- Characters of the class `[A-Za-z0-9\-_]` used by the sk-key patterns. -/
def isSkChar (c : Char) : Bool :=
  c.isAlphanum || c == '-' || c == '_'

/-- Characters of the class `[0-9A-Z]` used by the AWS-key pattern. -/
def isAwsChar (c : Char) : Bool :=
  c.isDigit || c.isUpper

/-- Quote characters: double quote or single quote. -/
def isQuote (c : Char) : Bool :=
  c == '"' || c == '\''

/-- Value characters of a key-value pattern: neither quote nor whitespace. -/
def isValChar (c : Char) : Bool :=
  !(isQuote c) && !(pyWhite c)

/-- Regex word characters `[A-Za-z0-9_]`, deciding `\b` boundaries. -/
def isWordChar (c : Char) : Bool :=
  c.isAlphanum || c == '_'

/-- Characters of the class `[a-fA-F0-9]`. -/
def isHexChar (c : Char) : Bool :=
  c.isDigit || decide ('a' ≤ c ∧ c ≤ 'f') || decide ('A' ≤ c ∧ c ≤ 'F')

/-- Python `str.strip`-style trimming with an arbitrary character test. -/
def pyStrip (p : Char → Bool) (cs : Chars) : Chars :=
  ((cs.dropWhile p).reverse.dropWhile p).reverse

/-- Trailing-only trim, Python `str.rstrip()`. -/
def rstripWhite (cs : Chars) : Chars :=
  (cs.reverse.dropWhile pyWhite).reverse

/-- Does `needle` occur at the start of `hay`?  (Python `str.startswith`.) -/
def seqStartsWith : Chars → Chars → Bool
  | [], _ => true
  | _ :: _, [] => false
  | a :: as, b :: bs => a == b && seqStartsWith as bs

/-- Does `needle` occur anywhere in `hay`?  (Python `in` on strings.) -/
def occursIn (needle : Chars) : Chars → Bool
  | [] => needle.isEmpty
  | c :: rest => seqStartsWith needle (c :: rest) || occursIn needle rest

/-- Python `text.split(given a single newline separator)`. -/
def splitLines : Chars → List Chars
  | [] => [[]]
  | c :: rest =>
    let r := splitLines rest
    if c == '\n' then [] :: r
    else
      match r with
      | l :: ls => (c :: l) :: ls
      | [] => [[c]]

/-- Python newline join. -/
def joinNL : List Chars → Chars
  | [] => []
  | [l] => l
  | l :: ls => l ++ '\n' :: joinNL ls

/-! ## Redactor (utils.redact_secrets) -/

def redKeyChars : Chars := "[REDACTED_KEY]".data

def redAwsChars : Chars := "[REDACTED_AWS]".data

def redChars : Chars := "[REDACTED]".data

/-- Scanner for the source line
`re.sub(r=doublequote(sk-[A-Za-z0-9\-_]\x7b20,\x7d)doublequote, ...)`:
a literal equals sign and double quote, then sk-, then at least twenty
characters of the class, then a closing double quote; the token is replaced
by the sentinel, keeping the equals sign and the quotes. -/
def sub1aGo : Nat → Chars → Chars
  | 0, cs => cs
  | _ + 1, [] => []
  | fuel + 1, c :: rest =>
    match c, rest with
    | '=', '"' :: 's' :: 'k' :: '-' :: tail =>
      let run := tail.takeWhile isSkChar
      let after := tail.drop run.length
      if 20 ≤ run.length ∧ after.head? = some '"' then
        '=' :: '"' :: (redKeyChars ++ '"' :: sub1aGo fuel (after.drop 1))
      else
        c :: sub1aGo fuel rest
    | _, _ => c :: sub1aGo fuel rest

def sub1a (cs : Chars) : Chars := sub1aGo cs.length cs

/-- Same as `sub1a` with single quotes. -/
def sub1bGo : Nat → Chars → Chars
  | 0, cs => cs
  | _ + 1, [] => []
  | fuel + 1, c :: rest =>
    match c, rest with
    | '=', '\'' :: 's' :: 'k' :: '-' :: tail =>
      let run := tail.takeWhile isSkChar
      let after := tail.drop run.length
      if 20 ≤ run.length ∧ after.head? = some '\'' then
        '=' :: '\'' :: (redKeyChars ++ '\'' :: sub1bGo fuel (after.drop 1))
      else
        c :: sub1bGo fuel rest
    | _, _ => c :: sub1bGo fuel rest

def sub1b (cs : Chars) : Chars := sub1bGo cs.length cs

/-- Scanner for the unquoted sk-key pattern with a whitespace-or-end
lookahead: the lookahead is not consumed. -/
def sub1cGo : Nat → Chars → Chars
  | 0, cs => cs
  | _ + 1, [] => []
  | fuel + 1, c :: rest =>
    match c, rest with
    | '=', 's' :: 'k' :: '-' :: tail =>
      let run := tail.takeWhile isSkChar
      let after := tail.drop run.length
      if 20 ≤ run.length ∧ after.head?.all pyWhite then
        '=' :: (redKeyChars ++ sub1cGo fuel after)
      else
        c :: sub1cGo fuel rest
    | _, _ => c :: sub1cGo fuel rest

def sub1c (cs : Chars) : Chars := sub1cGo cs.length cs

/-- Scanner for the double-quoted sk-key pattern without an equals sign. -/
def sub1dGo : Nat → Chars → Chars
  | 0, cs => cs
  | _ + 1, [] => []
  | fuel + 1, c :: rest =>
    match c, rest with
    | '"', 's' :: 'k' :: '-' :: tail =>
      let run := tail.takeWhile isSkChar
      let after := tail.drop run.length
      if 20 ≤ run.length ∧ after.head? = some '"' then
        '"' :: (redKeyChars ++ '"' :: sub1dGo fuel (after.drop 1))
      else
        c :: sub1dGo fuel rest
    | _, _ => c :: sub1dGo fuel rest

def sub1d (cs : Chars) : Chars := sub1dGo cs.length cs

/-- Does `AKIA` followed by sixteen characters of `[0-9A-Z]` start here? -/
def awsAt : Chars → Bool
  | 'A' :: 'K' :: 'I' :: 'A' :: tl => 16 ≤ (tl.takeWhile isAwsChar).length
  | _ => false

/-- Scanner for the AWS pattern: an optional quote (group 1), the
twenty-character key (group 2), an optional quote (group 3); the
replacement re-emits the quotes around the sentinel. -/
def sub2Go : Nat → Chars → Chars
  | 0, cs => cs
  | _ + 1, [] => []
  | fuel + 1, c :: rest =>
    if isQuote c ∧ awsAt rest then
      let after := rest.drop 20
      match after.head? with
      | some q2 =>
        if isQuote q2 then
          c :: (redAwsChars ++ q2 :: sub2Go fuel (after.drop 1))
        else
          c :: (redAwsChars ++ sub2Go fuel after)
      | none => c :: (redAwsChars ++ sub2Go fuel after)
    else if awsAt (c :: rest) then
      let after := (c :: rest).drop 20
      match after.head? with
      | some q2 =>
        if isQuote q2 then
          redAwsChars ++ q2 :: sub2Go fuel (after.drop 1)
        else
          redAwsChars ++ sub2Go fuel after
      | none => redAwsChars ++ sub2Go fuel after
    else
      c :: sub2Go fuel rest

def sub2 (cs : Chars) : Chars := sub2Go cs.length cs

/-- Character-wise key comparison, optionally ASCII-case-insensitive
(the IGNORECASE flag of the generic key-value patterns). -/
def charsMatchKey (caseIns : Bool) : Chars → Chars → Bool
  | [], _ => true
  | _ :: _, [] => false
  | k :: ks, c :: cs =>
    (if caseIns then k.toLower == c.toLower else k == c) && charsMatchKey caseIns ks cs

/-- Attempt to match one alternative of a key-value pattern
key, optional whitespace, an equals sign or colon, optional whitespace,
an optional quote, a value and an optional quote, at the head of `cs`.
On success
returns the replacement (the original-case key, an equals sign and the
sentinel) together with the number of consumed characters.  The value is
the maximal non-empty run of value characters; a leading quote that is not
followed by such a run makes the alternative fail, exactly as the regex
backtracking does. -/
def tryKVOne (caseIns allowColon : Bool) (key : Chars) (cs : Chars) : Option (Chars × Nat) :=
  if charsMatchKey caseIns key cs then
    let keyTxt := cs.take key.length
    let t1 := cs.drop key.length
    let s1 := (t1.takeWhile pyWhite).length
    let t2 := t1.drop s1
    match t2 with
    | sep :: t3 =>
      if sep == '=' || (allowColon && sep == ':') then
        let s2 := (t3.takeWhile pyWhite).length
        let t4 := t3.drop s2
        let lq := if t4.head?.any isQuote then 1 else 0
        let t5 := t4.drop lq
        let val := t5.takeWhile isValChar
        if val.isEmpty then none
        else
          let t6 := t5.drop val.length
          let rq := if t6.head?.any isQuote then 1 else 0
          some (keyTxt ++ ('=' :: redChars),
                key.length + s1 + 1 + s2 + lq + val.length + rq)
      else none
    | [] => none
  else none

/-- Try the alternatives of the key alternation in order (regex alternation
preference with backtracking across alternatives). -/
def tryKVKeys (caseIns allowColon : Bool) : List Chars → Chars → Option (Chars × Nat)
  | [], _ => none
  | k :: ks, cs =>
    match tryKVOne caseIns allowColon k cs with
    | some r => some r
    | none => tryKVKeys caseIns allowColon ks cs

/-- Left-to-right non-overlapping substitution for a key-value pattern. -/
def subKVGo (caseIns allowColon : Bool) (keys : List Chars) : Nat → Chars → Chars
  | 0, cs => cs
  | _ + 1, [] => []
  | fuel + 1, c :: rest =>
    match tryKVKeys caseIns allowColon keys (c :: rest) with
    | some (repl, used) => repl ++ subKVGo caseIns allowColon keys fuel ((c :: rest).drop used)
    | none => c :: subKVGo caseIns allowColon keys fuel rest

def subKV (caseIns allowColon : Bool) (keys : List Chars) (cs : Chars) : Chars :=
  subKVGo caseIns allowColon keys cs.length cs

def passKeys : List Chars :=
  ["password".data, "passwd".data, "pwd".data, "pass".data]

def tokenKeys : List Chars :=
  ["token".data, "jwt".data, "bearer".data]

def envKeys : List Chars :=
  ["API_KEY".data, "SECRET".data, "TOKEN".data, "PASSWORD".data, "PASSWD".data]

/-- Password-style key-value masking (case-insensitive, separator `=` or `:`). -/
def sub3a (cs : Chars) : Chars := subKV true true passKeys cs

/-- Token-style key-value masking (case-insensitive, separator `=` or `:`). -/
def sub3b (cs : Chars) : Chars := subKV true true tokenKeys cs

/-- Environment-variable masking, skipped when the step-1 sentinel occurs
anywhere in the text (the source tests the sentinel with the Python
membership operator on the whole text). -/
def sub4 (cs : Chars) : Chars :=
  if occursIn redKeyChars cs then cs else subKV false false envKeys cs

/-- Shannon-entropy threshold test, `entropy >= 3.5`, decided exactly in
integer arithmetic: with `n` the length and `k c` the count of each
distinct character, the entropy is at least 3.5 iff
`2 ^ (7 n) * prod over distinct c of (k c) ^ (2 k c) <= n ^ (2 n)`. -/
def entropyAtLeast35 (cs : Chars) : Bool :=
  let n := cs.length
  let p := cs.eraseDups.foldl (fun acc c => acc * (cs.count c) ^ (2 * cs.count c)) 1
  decide (2 ^ (7 * n) * p ≤ n ^ (2 * n))

/-- utils.is_high_entropy_token: strip whitespace and quotes, require
length at least 20, then the entropy threshold. -/
def is_high_entropy_token (tok : Chars) : Bool :=
  let t := pyStrip isQuote (pyStrip pyWhite tok)
  if t.length < 20 then false else entropyAtLeast35 t

/-- The replacement callback `_mask_high_entropy` of the entropy step. -/
def maskHighEntropy (tok : Chars) : Chars :=
  if ((tok.drop 1).dropLast.contains '_') ∧ ¬(seqStartsWith "sk-".data tok = true) then tok
  else if is_high_entropy_token tok then redChars else tok

/-- Scanner for the entropy step: a word-boundary-delimited run of at
least 32 hex characters; `prevWord` records whether the previous character
was a regex word character (the state of the left `\b`). -/
def sub5Go (prevWord : Bool) : Nat → Chars → Chars
  | 0, cs => cs
  | _ + 1, [] => []
  | fuel + 1, c :: rest =>
    if ¬(prevWord = true) ∧ isHexChar c then
      let run := c :: rest.takeWhile isHexChar
      let after := rest.drop (run.length - 1)
      if 32 ≤ run.length ∧ after.head?.all (fun d => !(isWordChar d)) then
        maskHighEntropy run ++ sub5Go true fuel after
      else
        c :: sub5Go (isWordChar c) fuel rest
    else
      c :: sub5Go (isWordChar c) fuel rest

def sub5 (cs : Chars) : Chars := sub5Go false cs.length cs

/-- utils.redact_secrets: the five masking steps in source order. -/
def redact_secrets (s : String) : String :=
  let t := sub1a s.data
  let t := sub1b t
  let t := sub1c t
  let t := sub1d t
  let t := sub2 t
  let t := sub3a t
  let t := sub3b t
  let t := sub4 t
  let t := sub5 t
  String.mk t

/-! ## Normalizer: strip_comments, summarize_config, deduplicate_content -/

/-- Find the first closing star-slash in the text; returns the consumed
segment (closing delimiter included) and the remainder. -/
def findCloseStar : Chars → Option (Chars × Chars)
  | [] => none
  | '*' :: '/' :: rest => some (['*', '/'], rest)
  | c :: rest =>
    match findCloseStar rest with
    | some (seg, r) => some (c :: seg, r)
    | none => none

/-- `re.findall` of the JSDoc block pattern: each match runs from a
slash-star-star opener to the first closing star-slash after it. -/
def docBlocksGo : Nat → Chars → List Chars
  | 0, _ => []
  | _ + 1, [] => []
  | fuel + 1, cs =>
    match cs with
    | '/' :: '*' :: '*' :: rest =>
      match findCloseStar rest with
      | some (seg, r) => ('/' :: '*' :: '*' :: seg) :: docBlocksGo fuel r
      | none => docBlocksGo fuel ('*' :: '*' :: rest)
    | _ :: rest => docBlocksGo fuel rest
    | [] => []

def docBlocks (cs : Chars) : List Chars := docBlocksGo cs.length cs

/-- Drop the tail of a line from the first double slash on
(`re.sub` of the line-comment pattern under MULTILINE). -/
def cutLineComment : Chars → Chars
  | [] => []
  | '/' :: '/' :: _ => []
  | c :: rest => c :: cutLineComment rest

/-- The (dead, in the source) line-comment removal of the C-like branch. -/
def removeLineComments (cs : Chars) : Chars :=
  joinNL ((splitLines cs).map cutLineComment)

/-- The (dead, in the source) non-doc block-comment removal: a slash-star
not followed by a star, removed through the first closing star-slash. -/
def removeBlockCommentsGo : Nat → Chars → Chars
  | 0, cs => cs
  | _ + 1, [] => []
  | fuel + 1, cs =>
    match cs with
    | '/' :: '*' :: rest =>
      match rest with
      | '*' :: rest2 => '/' :: removeBlockCommentsGo fuel ('*' :: '*' :: rest2)
      | _ =>
        match findCloseStar rest with
        | some (_, r) => removeBlockCommentsGo fuel r
        | none => '/' :: removeBlockCommentsGo fuel ('*' :: rest)
    | c :: rest => c :: removeBlockCommentsGo fuel rest
    | [] => []

def removeBlockComments (cs : Chars) : Chars :=
  removeBlockCommentsGo cs.length cs

def tripleQuote : Chars := ['"', '"', '"']

def tripleTick : Chars := ['\'', '\'', '\'']

/-- The Python branch of utils.strip_comments: the in-docstring toggle
keyed on the opening quote style, and per-line hash-comment removal. -/
def pyStripCommentsGo (inDoc : Bool) (docChar : Option Chars) : List Chars → List Chars
  | [] => []
  | line :: rest =>
    if occursIn tripleQuote line || occursIn tripleTick line then
      if ¬(inDoc = true) then
        let dc := if occursIn tripleQuote line then tripleQuote else tripleTick
        line :: pyStripCommentsGo true (some dc) rest
      else if docChar.any (fun d => occursIn d line) then
        line :: pyStripCommentsGo false none rest
      else
        line :: pyStripCommentsGo inDoc docChar rest
    else if inDoc then
      line :: pyStripCommentsGo inDoc docChar rest
    else
      if line.contains '#' then
        let codePart := rstripWhite (line.takeWhile (fun c => c ≠ '#'))
        if codePart.isEmpty then pyStripCommentsGo inDoc docChar rest
        else codePart :: pyStripCommentsGo inDoc docChar rest
      else
        line :: pyStripCommentsGo inDoc docChar rest

/-- utils.strip_comments.  For the C-like branch the source computes the
line- and block-comment-stripped code (`removeLineComments`,
`removeBlockComments`) but then returns only the joined JSDoc blocks,
discarding that computation. -/
def strip_comments (code : String) (language : String) : String :=
  if ["python", "py"].contains language then
    String.mk (joinNL (pyStripCommentsGo false none (splitLines code.data)))
  else if ["javascript", "js", "typescript", "ts", "java", "c", "cpp"].contains language then
    String.mk (joinNL ((docBlocks code.data).filter (fun b => !(pyStrip pyWhite b).isEmpty)))
  else
    code

/-- One line of utils.summarize_config: skip blank and hash-comment lines,
keep bracket lines verbatim, summarize key-value lines, drop the rest. -/
def summarizeLine (line : Chars) : Option Chars :=
  let stripped := pyStrip pyWhite line
  if stripped.isEmpty then none
  else if seqStartsWith ['#'] stripped then none
  else if stripped.any (fun c => c == '\x7b' || c == '\x7d' || c == '[' || c == ']') then
    some line
  else if stripped.contains '=' || stripped.contains ':' then
    let sep := if stripped.contains '=' then '=' else ':'
    let key := pyStrip pyWhite (stripped.takeWhile (fun c => c ≠ sep))
    some (key ++ (": [configured]".data))
  else none

/-- utils.summarize_config: redact first, then summarize line by line. -/
def summarize_config (s : String) : String :=
  String.mk (joinNL ((splitLines (redact_secrets s).data).filterMap summarizeLine))

/-- Python `line.strip()` on a string line. -/
def stripLine (l : String) : String := String.mk (pyStrip pyWhite l.data)

/-- The loop of utils.deduplicate_content: `seen` is the set of stripped
non-blank lines already emitted, `result` the accumulated output. -/
def dedupGo : List String → List String → List String → List String
  | _, result, [] => result
  | seen, result, line :: rest =>
    if stripLine line ≠ "" ∧ stripLine line ∉ seen then
      dedupGo (stripLine line :: seen) (result ++ [line]) rest
    else if stripLine line = "" then
      if result.getLast?.any (fun last => stripLine last == "") then
        dedupGo seen result rest
      else
        dedupGo seen (result ++ [""]) rest
    else
      dedupGo seen result rest

def dedupLines (lines : List String) : List String := dedupGo [] [] lines

/-- utils.deduplicate_content. -/
def deduplicate_content (content : String) : String :=
  "\n".intercalate (dedupLines (content.splitOn "\n"))

/-- Modelled from the spec: the first occurrence (by stripped content) of
each distinct non-blank line, in order; used to compare
`deduplicate_content` against the first-occurrence-wins wording of the spec. -/
def firstOccAux (seen : List String) : List String → List String
  | [] => []
  | l :: ls =>
    if stripLine l ≠ "" ∧ stripLine l ∉ seen then
      l :: firstOccAux (stripLine l :: seen) ls
    else
      firstOccAux seen ls

def specFirstOccurrences (ls : List String) : List String := firstOccAux [] ls

/-! ## Hash store (utils.check_staleness / update_hash) -/

abbrev ByteSeq := List Nat

/-- An entry of the hash store: digest and update timestamp. -/
structure HashEntry where
  hash : String
  updated : String
deriving DecidableEq

/-- utils.calculate_file_hash: digest of the raw bytes of the file, for an
arbitrary deterministic digest function and file system. -/
def calculate_file_hash (hashFn : ByteSeq → String) (fs : String → ByteSeq) (path : String) : String :=
  hashFn (fs path)

/-- utils.check_staleness: no entry means not stale; otherwise compare the
stored digest with the current digest of the live file. -/
def check_staleness (hashFn : ByteSeq → String) (fs : String → ByteSeq)
    (path : String) (stored : String → Option HashEntry) : Bool :=
  match stored path with
  | none => false
  | some e => e.hash != calculate_file_hash hashFn fs path

/-- utils.update_hash: overwrite the entry for `path` with the current
digest and timestamp. -/
def update_hash (hashFn : ByteSeq → String) (fs : String → ByteSeq)
    (path : String) (now : String) (stored : String → Option HashEntry) :
    String → Option HashEntry :=
  fun q => if q = path then some ⟨calculate_file_hash hashFn fs path, now⟩ else stored q

/-! ## baseline add (commands/baseline_commands.py) -/

/-- The per-file attributes read by the validations of the add command. -/
structure SrcFile where
  name : String
  suffix : String
  size : Nat
  inProject : Bool
deriving DecidableEq

structure AddConfig where
  allowedExts : List String
  maxFileSizeKb : Nat
deriving DecidableEq

inductive AddError where
  | outsideRoot (name : String)
  | disallowedType (suffix : String)
  | tooLarge (name : String)
deriving DecidableEq

/-- Python `str.lower()` on ASCII input, character by character. -/
def pyLower (s : String) : String := String.mk (s.data.map Char.toLower)

/-- The validations run for one file of the batch, in source order:
path-traversal check, extension check, size check; each failure raises
click.BadParameter in the source, modelled as `Except.error`. -/
def processFile (cfg : AddConfig) (f : SrcFile) : Except AddError Unit :=
  if ¬(f.inProject = true) then .error (.outsideRoot f.name)
  else if ¬(cfg.allowedExts.contains (pyLower f.suffix) = true) then .error (.disallowedType f.suffix)
  else if cfg.maxFileSizeKb * 1024 < f.size then .error (.tooLarge f.name)
  else .ok ()

/-- The loop of the add command: files are processed in order and a raised
validation error propagates, ending the loop (and skipping the final
save of the hash store).  On success, the names added to the baseline. -/
def baseline_add (cfg : AddConfig) : List SrcFile → Except AddError (List String)
  | [] => .ok []
  | f :: rest =>
    match processFile cfg f with
    | .error e => .error e
    | .ok _ =>
      match baseline_add cfg rest with
      | .error e => .error e
      | .ok names => .ok (f.name :: names)

/-! ## Bundle assembly (commands/bundle_command.py) -/

/-- Python `section or "None"` at the call site of the manual bundle. -/
def orNone (s : String) : String := if s = "" then "None" else s

/-- The list of lines built by `_manual_fixed_bundle`; each section body is
replaced by the literal None when it strips to nothing. -/
def bundleLines (architecture apis configuration schema session crossRepo expanded : String) :
    List String :=
  [ "# Project Context for AI Tools\n",
    "*Generated by Context Engine V1*\n",
    "## Architecture\n",
    (if (pyStrip pyWhite architecture.data).isEmpty then "None" else architecture),
    "\n## APIs\n",
    (if (pyStrip pyWhite apis.data).isEmpty then "None" else apis),
    "\n## Configuration\n",
    (if (pyStrip pyWhite configuration.data).isEmpty then "None" else configuration),
    "\n## Database Schema\n",
    (if (pyStrip pyWhite schema.data).isEmpty then "None" else schema),
    "\n## Session Notes\n",
    (if (pyStrip pyWhite session.data).isEmpty then "None" else session),
    "\n## Cross-Repo Notes\n",
    (if (pyStrip pyWhite crossRepo.data).isEmpty then "None" else crossRepo),
    "\n## Expanded Files\n",
    (if (pyStrip pyWhite expanded.data).isEmpty then "None" else expanded) ]

/-- bundle_command._manual_fixed_bundle: the fixed-order document. -/
def manual_fixed_bundle (architecture apis configuration schema session crossRepo expanded : String) :
    String :=
  "\n".intercalate (bundleLines architecture apis configuration schema session crossRepo expanded)

/-! ## Compression (compressors/longcodezip_wrapper.py, commands/compress_command.py) -/

/-- The observable behaviour of the external LongCodeZip backend for one
call: a successful result, a missing backend, a timeout, or another error. -/
inductive BackendBehavior where
  | succeeds (compressedCode compressedPrompt : String) (compressionRate : Rat)
  | importMissing
  | timesOut
  | raises
deriving DecidableEq

inductive PyExc where
  | importError
  | timeoutError
  | otherError
deriving DecidableEq

/-- The body of LongcodezipWrapper.compress before its except clauses:
initialization may raise ImportError, the timed call may raise
TimeoutError or any other exception. -/
def compressBody : BackendBehavior → Except PyExc (String × String × Rat)
  | .succeeds c p r => .ok (c, p, r)
  | .importMissing => .error .importError
  | .timesOut => .error .timeoutError
  | .raises => .error .otherError

/-- LongcodezipWrapper.compress: every caught exception becomes the
failure value, a triple of None. -/
def wrapperCompress (b : BackendBehavior) : Option String × Option String × Option Rat :=
  match compressBody b with
  | .ok (c, p, r) => (some c, some p, some r)
  | .error _ => (none, none, none)

inductive FileRead where
  | readable (content : String)
  | readFails
deriving DecidableEq

structure BatchFile where
  name : String
  read : FileRead
  backend : BackendBehavior
deriving DecidableEq

/-- The per-file report of the compress command loop: a success line, a
warn line for a failed compression, or an error line for a raised
exception while processing the file. -/
inductive Report where
  | compressedOk (name : String)
  | compressFailed (name : String)
  | errorProcessing (name : String)
deriving DecidableEq

/-- One iteration of the compress command loop: the try block reads the
file and calls the wrapper; a read exception is caught and reported, a
None result is reported as a failed compression. -/
def processOne (f : BatchFile) : Report × Option String :=
  match f.read with
  | .readFails => (.errorProcessing f.name, none)
  | .readable _ =>
    match wrapperCompress f.backend with
    | (some c, _, _) => (.compressedOk f.name, some c)
    | (none, _, _) => (.compressFailed f.name, none)

/-- The compress command loop over the baseline files: one report per
file, never terminating early. -/
def compressBatch : List BatchFile → List Report
  | [] => []
  | f :: rest => (processOne f).1 :: compressBatch rest

/-! ## sanitize_note_input (utils.sanitize_note_input) -/

/-- The control characters removed by the character class of
sanitize_note_input: U+0000 to U+0008, U+000B, U+000C, U+000E to U+001F, U+007F. -/
def isCtrlChar (c : Char) : Bool :=
  decide (c.toNat ≤ 8) || c == '\x0b' || c == '\x0c' ||
    decide (14 ≤ c.toNat ∧ c.toNat ≤ 31) || c == '\x7f'

/-- utils.sanitize_note_input: remove control characters (the source binds
the cleaned text to a local variable), then truncate to `maxLen`
characters with a single ellipsis appended when the cleaned text is
longer than `maxLen`. -/
def sanitize_note_input (note : String) (maxLen : Nat) : String :=
  if maxLen < (note.data.filter (fun c => !(isCtrlChar c))).length then
    String.mk ((note.data.filter (fun c => !(isCtrlChar c))).take maxLen ++ ['…'])
  else
    String.mk (note.data.filter (fun c => !(isCtrlChar c)))
/-! ## Helper lemmas -/

theorem stripLine_empty : stripLine "" = "" := rfl

theorem dedupGo_filter_eq (rest : List String) : ∀ (seen result : List String),
    (dedupGo seen result rest).filter (fun l => stripLine l != "") =
      result.filter (fun l => stripLine l != "") ++ firstOccAux seen rest := by
  induction rest with
  | nil => intro seen result; simp [dedupGo, firstOccAux]
  | cons line ls ih =>
    intro seen result
    by_cases h1 : stripLine line ≠ "" ∧ stripLine line ∉ seen
    · have hstep : dedupGo seen result (line :: ls) =
          dedupGo (stripLine line :: seen) (result ++ [line]) ls := by
        simp [dedupGo, h1.1, h1.2]
      rw [hstep, ih, firstOccAux, if_pos h1, List.filter_append]
      have hb : (stripLine line != "") = true := bne_iff_ne.mpr h1.1
      have hf : List.filter (fun l => stripLine l != "") [line] = [line] := by
        simp [List.filter, hb]
      rw [hf, List.append_assoc]
      rfl
    · by_cases h2 : stripLine line = ""
      · have hfo : firstOccAux seen (line :: ls) = firstOccAux seen ls := by
          rw [firstOccAux, if_neg h1]
        by_cases h3 : (result.getLast?.any (fun last => stripLine last == "")) = true
        · have hstep : dedupGo seen result (line :: ls) = dedupGo seen result ls := by
            simp [dedupGo, h2, h3]
          rw [hstep, ih, hfo]
        · have hstep : dedupGo seen result (line :: ls) = dedupGo seen (result ++ [""]) ls := by
            simp [dedupGo, h2, h3]
          rw [hstep, ih, hfo, List.filter_append]
          simp [List.filter, stripLine_empty]
      · have h4 : stripLine line ∈ seen := by
          by_contra h5
          exact h1 ⟨h2, h5⟩
        have hstep : dedupGo seen result (line :: ls) = dedupGo seen result ls := by
          simp [dedupGo, h2, h4]
        have hfo : firstOccAux seen (line :: ls) = firstOccAux seen ls := by
          rw [firstOccAux, if_neg h1]
        rw [hstep, ih, hfo]

theorem dedupGo_pairwise (rest : List String) : ∀ (seen result : List String),
    (∀ l ∈ result, stripLine l ≠ "" → stripLine l ∈ seen) →
    result.Pairwise (fun a b => stripLine a ≠ "" → stripLine b ≠ "" → stripLine a ≠ stripLine b) →
    (dedupGo seen result rest).Pairwise
      (fun a b => stripLine a ≠ "" → stripLine b ≠ "" → stripLine a ≠ stripLine b) := by
  induction rest with
  | nil => intro seen result _ hpw; simpa [dedupGo] using hpw
  | cons line ls ih =>
    intro seen result hmem hpw
    by_cases h1 : stripLine line ≠ "" ∧ stripLine line ∉ seen
    · have hstep : dedupGo seen result (line :: ls) =
          dedupGo (stripLine line :: seen) (result ++ [line]) ls := by
        simp [dedupGo, h1.1, h1.2]
      rw [hstep]
      apply ih
      · intro l hl hnl
        rcases List.mem_append.mp hl with hl | hl
        · exact List.mem_cons_of_mem _ (hmem l hl hnl)
        · rw [List.mem_singleton.mp hl]
          exact List.mem_cons_self _ _
      · rw [List.pairwise_append]
        refine ⟨hpw, List.pairwise_singleton _ _, ?_⟩
        intro a ha b hb
        rw [List.mem_singleton.mp hb]
        intro hna _ heq
        exact h1.2 (heq ▸ hmem a ha hna)
    · by_cases h2 : stripLine line = ""
      · by_cases h3 : (result.getLast?.any (fun last => stripLine last == "")) = true
        · have hstep : dedupGo seen result (line :: ls) = dedupGo seen result ls := by
            simp [dedupGo, h2, h3]
          rw [hstep]; exact ih seen result hmem hpw
        · have hstep : dedupGo seen result (line :: ls) = dedupGo seen (result ++ [""]) ls := by
            simp [dedupGo, h2, h3]
          rw [hstep]
          apply ih
          · intro l hl hnl
            rcases List.mem_append.mp hl with hl | hl
            · exact hmem l hl hnl
            · rw [List.mem_singleton.mp hl] at hnl
              exact absurd stripLine_empty hnl
          · rw [List.pairwise_append]
            refine ⟨hpw, List.pairwise_singleton _ _, ?_⟩
            intro a _ b hb
            rw [List.mem_singleton.mp hb]
            intro _ hnb
            exact absurd stripLine_empty hnb
      · have h4 : stripLine line ∈ seen := by
          by_contra h5
          exact h1 ⟨h2, h5⟩
        have hstep : dedupGo seen result (line :: ls) = dedupGo seen result ls := by
          simp [dedupGo, h2, h4]
        rw [hstep]; exact ih seen result hmem hpw

theorem dedupGo_chain (rest : List String) : ∀ (seen result : List String),
    result.Chain' (fun a b => ¬(stripLine a = "" ∧ stripLine b = "")) →
    (dedupGo seen result rest).Chain' (fun a b => ¬(stripLine a = "" ∧ stripLine b = "")) := by
  induction rest with
  | nil => intro seen result hc; simpa [dedupGo] using hc
  | cons line ls ih =>
    intro seen result hc
    by_cases h1 : stripLine line ≠ "" ∧ stripLine line ∉ seen
    · have hstep : dedupGo seen result (line :: ls) =
          dedupGo (stripLine line :: seen) (result ++ [line]) ls := by
        simp [dedupGo, h1.1, h1.2]
      rw [hstep]
      apply ih
      rw [List.chain'_append]
      refine ⟨hc, List.chain'_singleton _, ?_⟩
      intro x _ y hy
      simp only [List.head?_cons, Option.mem_def, Option.some.injEq] at hy
      rw [← hy]
      intro hand
      exact h1.1 hand.2
    · by_cases h2 : stripLine line = ""
      · by_cases h3 : (result.getLast?.any (fun last => stripLine last == "")) = true
        · have hstep : dedupGo seen result (line :: ls) = dedupGo seen result ls := by
            simp [dedupGo, h2, h3]
          rw [hstep]; exact ih seen result hc
        · have hstep : dedupGo seen result (line :: ls) = dedupGo seen (result ++ [""]) ls := by
            simp [dedupGo, h2, h3]
          rw [hstep]
          apply ih
          rw [List.chain'_append]
          refine ⟨hc, List.chain'_singleton _, ?_⟩
          intro x hx y _
          simp only [Option.mem_def] at hx
          rw [hx] at h3
          simp only [Option.any_some, beq_iff_eq] at h3
          intro hand
          exact h3 hand.1
      · have h4 : stripLine line ∈ seen := by
          by_contra h5
          exact h1 ⟨h2, h5⟩
        have hstep : dedupGo seen result (line :: ls) = dedupGo seen result ls := by
          simp [dedupGo, h2, h4]
        rw [hstep]; exact ih seen result hc

theorem firstOccAux_sublist (ls : List String) : ∀ seen, List.Sublist (firstOccAux seen ls) ls := by
  induction ls with
  | nil => intro seen; simp [firstOccAux]
  | cons l ls ih =>
    intro seen
    rw [firstOccAux]
    by_cases h : stripLine l ≠ "" ∧ stripLine l ∉ seen
    · rw [if_pos h]; exact (ih _).cons₂ _
    · rw [if_neg h]; exact (ih _).cons _
/-! ## Claim theorems -/

/-- C1 counterexample: the redactor is not idempotent.  On the input
pass="a"b the first application masks the quoted value but leaves the
trailing b; the second application masks the sentinel together with the
trailing b, shortening the text again. -/
theorem redact_secrets_not_idempotent :
    redact_secrets (redact_secrets "pass=\"a\"b") ≠ redact_secrets "pass=\"a\"b" := by
  decide

/-- C1 (amended): redact is not idempotent in general; it is idempotent on
inputs whose masked values extend to whitespace or end of text, in
particular on the scenario input of the spec, which is redacted to the step-1
sentinel and is a fixed point of a second application. -/
theorem redact_secrets_scenario_idempotent :
    redact_secrets "API_KEY=sk-aaaaaaaaaaaaaaaaaaaaaaaaaaaaaaaa" = "API_KEY=[REDACTED_KEY]" ∧
    redact_secrets (redact_secrets "API_KEY=sk-aaaaaaaaaaaaaaaaaaaaaaaaaaaaaaaa") =
      redact_secrets "API_KEY=sk-aaaaaaaaaaaaaaaaaaaaaaaaaaaaaaaa" :=
  ⟨rfl, rfl⟩

/-- C2 counterexample: with an sk-key redacted by step 1 on one line and a
SECRET assignment on another line, the SECRET value is NOT replaced,
because the skip condition of step 4 looks for the sentinel in the whole
text, not in the line. -/
theorem redact_secrets_env_skip_cex :
    occursIn "SECRET=[REDACTED]".data
      (redact_secrets "k=\"sk-aaaaaaaaaaaaaaaaaaaa\"\nSECRET=abc").data = false ∧
    occursIn "SECRET=abc".data
      (redact_secrets "k=\"sk-aaaaaaaaaaaaaaaaaaaa\"\nSECRET=abc").data = true := by
  refine ⟨by decide, by decide⟩

/-- C2 (amended): the step-4 skip condition is per whole text.  When the
step-1 sentinel appears anywhere in the text, step 4 is skipped entirely
and a SECRET assignment on a different line keeps its value; when the
sentinel is absent, step 4 masks the SECRET value. -/
theorem redact_secrets_env_skip_whole_text :
    redact_secrets "k=\"sk-aaaaaaaaaaaaaaaaaaaa\"\nSECRET=abc" =
      "k=\"[REDACTED_KEY]\"\nSECRET=abc" ∧
    redact_secrets "SECRET=abc" = "SECRET=[REDACTED]" :=
  ⟨rfl, rfl⟩

/-- C3: the C-like branch of strip_comments returns only the joined JSDoc
blocks.  The executable code (which the dead computation of the source
would have preserved) is discarded, and duplicate doc blocks are kept. -/
theorem strip_comments_clike_drops_code :
    strip_comments "int x = 1; // note\n/** doc */\nint y;" "c" = "/** doc */" ∧
    occursIn "int x".data
      (strip_comments "int x = 1; // note\n/** doc */\nint y;" "c").data = false ∧
    occursIn "int x = 1;".data
      (removeBlockComments
        (removeLineComments "int x = 1; // note\n/** doc */\nint y;".data)) = true ∧
    strip_comments "/** d */\n/** d */" "js" = "/** d */\n/** d */" := by
  refine ⟨rfl, by decide, by decide, rfl⟩

/-- C4 counterexample: a batch whose first file has a disallowed extension
aborts with the raised error; the second, valid file of the batch (which
alone would be added) is never processed. -/
theorem baseline_add_cex :
    baseline_add ⟨[".py"], 1024⟩
        [⟨"a.exe", ".exe", 10, true⟩, ⟨"b.py", ".py", 10, true⟩] =
      Except.error (AddError.disallowedType ".exe") ∧
    baseline_add ⟨[".py"], 1024⟩ [⟨"b.py", ".py", 10, true⟩] = Except.ok ["b.py"] :=
  ⟨rfl, rfl⟩

/-- C4 (amended): a validation failure for any file of the batch raises
click.BadParameter, which aborts the whole command: no later file is
processed and the hash store is not saved. -/
theorem baseline_add_aborts (cfg : AddConfig) (f : SrcFile) (rest : List SrcFile)
    (e : AddError) (h : processFile cfg f = .error e) :
    baseline_add cfg (f :: rest) = .error e := by
  simp [baseline_add, h]

/-- Witness for the C4 theorem: an oversized first file aborts the batch. -/
theorem baseline_add_aborts_witness :
    baseline_add ⟨[".py"], 1024⟩
        [⟨"big.py", ".py", 2000000, true⟩, ⟨"b.py", ".py", 10, true⟩] =
      Except.error (AddError.tooLarge "big.py") :=
  baseline_add_aborts ⟨[".py"], 1024⟩ ⟨"big.py", ".py", 2000000, true⟩
    [⟨"b.py", ".py", 10, true⟩] (AddError.tooLarge "big.py") rfl

/-- C5: check_staleness returns false for a path with no entry; false
right after update_hash when the bytes of the file are unchanged; and for a
stored entry it returns true exactly when the live digest differs from the
stored digest. -/
theorem check_staleness_spec (hashFn : ByteSeq → String) (fs fs2 : String → ByteSeq)
    (path now : String) (stored : String → Option HashEntry) :
    (stored path = none → check_staleness hashFn fs path stored = false) ∧
    (fs2 path = fs path →
      check_staleness hashFn fs2 path (update_hash hashFn fs path now stored) = false) ∧
    (∀ e, stored path = some e →
      (check_staleness hashFn fs path stored = true ↔ e.hash ≠ hashFn (fs path))) := by
  refine ⟨?_, ?_, ?_⟩
  · intro h; simp [check_staleness, h]
  · intro h
    simp [check_staleness, update_hash, calculate_file_hash, h]
  · intro e h
    simp [check_staleness, calculate_file_hash, h, bne_iff_ne]

/-- Witness for the C5 theorem at a concrete digest function, file system
and store. -/
theorem check_staleness_spec_witness :
    check_staleness (fun b => toString b.length) (fun _ => [7]) "p" (fun _ => none) = false ∧
    check_staleness (fun b => toString b.length) (fun _ => [7]) "p"
      (update_hash (fun b => toString b.length) (fun _ => [7]) "p" "t" (fun _ => none)) = false :=
  ⟨(check_staleness_spec (fun b => toString b.length) (fun _ => [7]) (fun _ => [7])
      "p" "t" (fun _ => none)).1 rfl,
   (check_staleness_spec (fun b => toString b.length) (fun _ => [7]) (fun _ => [7])
      "p" "t" (fun _ => none)).2.1 rfl⟩

/-- C6 counterexample: a key-value line whose redaction introduces a
bracket is kept verbatim as its redacted form, not summarized to
key colon configured: the summarization is applied to the redacted text,
not to the raw input lines. -/
theorem summarize_config_cex :
    summarize_config "pwd: x" ≠ "pwd: [configured]" := by
  decide

/-- C6 (amended): summarize_config redacts first and then maps the lines
of the redacted text (bracket lines verbatim, key-value lines to
key colon configured, others dropped); the host and port scenario of the spec
holds as stated. -/
theorem summarize_config_amended :
    summarize_config "host = 10.0.0.1\nport: 5432\n\x7b" =
      "host: [configured]\nport: [configured]\n\x7b" ∧
    summarize_config "pwd: x" = "pwd=[REDACTED]" ∧
    ∀ s : String, summarize_config s =
      String.mk (joinNL ((splitLines (redact_secrets s).data).filterMap summarizeLine)) :=
  ⟨rfl, rfl, fun _ => rfl⟩

/-- C7: the manual bundle with all seven sections empty is exactly the
fixed skeleton whose every section body is the literal None, and for all
section contents the title, the generator marker and the seven headings
are present in the line list of the document (no heading is ever omitted). -/
theorem manual_fixed_bundle_spec :
    manual_fixed_bundle (orNone "") (orNone "") (orNone "") (orNone "")
        (orNone "") (orNone "") (orNone "") =
      "# Project Context for AI Tools\n\n*Generated by Context Engine V1*\n\n## Architecture\n\nNone\n\n## APIs\n\nNone\n\n## Configuration\n\nNone\n\n## Database Schema\n\nNone\n\n## Session Notes\n\nNone\n\n## Cross-Repo Notes\n\nNone\n\n## Expanded Files\n\nNone" ∧
    ∀ a b c d e f g : String,
      manual_fixed_bundle a b c d e f g = "\n".intercalate (bundleLines a b c d e f g) ∧
      "# Project Context for AI Tools\n" ∈ bundleLines a b c d e f g ∧
      "*Generated by Context Engine V1*\n" ∈ bundleLines a b c d e f g ∧
      "## Architecture\n" ∈ bundleLines a b c d e f g ∧
      "\n## APIs\n" ∈ bundleLines a b c d e f g ∧
      "\n## Configuration\n" ∈ bundleLines a b c d e f g ∧
      "\n## Database Schema\n" ∈ bundleLines a b c d e f g ∧
      "\n## Session Notes\n" ∈ bundleLines a b c d e f g ∧
      "\n## Cross-Repo Notes\n" ∈ bundleLines a b c d e f g ∧
      "\n## Expanded Files\n" ∈ bundleLines a b c d e f g := by
  refine ⟨rfl, fun a b c d e f g => ⟨rfl, ?_, ?_, ?_, ?_, ?_, ?_, ?_, ?_, ?_⟩⟩ <;>
    simp [bundleLines]

/-- C8: deduplicate_content joins the processed lines; the processed lines
contain no two identical non-blank lines, their non-blank part is exactly
the first occurrence of each distinct stripped content in input order (a
subsequence of the input lines), and no two consecutive lines are blank. -/
theorem deduplicate_content_spec (content : String) :
    deduplicate_content content = "\n".intercalate (dedupLines (content.splitOn "\n")) ∧
    (dedupLines (content.splitOn "\n")).Pairwise (fun a b => stripLine a ≠ "" → a ≠ b) ∧
    (dedupLines (content.splitOn "\n")).filter (fun l => stripLine l != "") =
      specFirstOccurrences (content.splitOn "\n") ∧
    List.Sublist ((dedupLines (content.splitOn "\n")).filter (fun l => stripLine l != ""))
      (content.splitOn "\n") ∧
    (dedupLines (content.splitOn "\n")).Chain' (fun a b => ¬(stripLine a = "" ∧ stripLine b = "")) := by
  refine ⟨rfl, ?_, ?_, ?_, ?_⟩
  · have h := dedupGo_pairwise (content.splitOn "\n") [] [] (by simp) (by simp)
    exact h.imp fun {a b} hab => fun hna heq =>
      hab hna (heq ▸ hna) (congrArg stripLine heq)
  · have h := dedupGo_filter_eq (content.splitOn "\n") [] []
    simpa [dedupLines, specFirstOccurrences] using h
  · have h := dedupGo_filter_eq (content.splitOn "\n") [] []
    rw [show (dedupLines (content.splitOn "\n")).filter (fun l => stripLine l != "") =
        specFirstOccurrences (content.splitOn "\n") from by
      simpa [dedupLines, specFirstOccurrences] using h]
    exact firstOccAux_sublist _ _
  · exact dedupGo_chain (content.splitOn "\n") [] [] (by simp)

/-- C9: every failure mode of the external backend (missing import,
timeout, any other exception) makes the wrapper return the triple of None
instead of raising, and the batch loop produces exactly one report per
baseline file, continuing past any failing file. -/
theorem compress_failures_spec :
    wrapperCompress .importMissing = (none, none, none) ∧
    wrapperCompress .timesOut = (none, none, none) ∧
    wrapperCompress .raises = (none, none, none) ∧
    (∀ (f : BatchFile) (rest : List BatchFile),
      compressBatch (f :: rest) = (processOne f).1 :: compressBatch rest) ∧
    ∀ files : List BatchFile, (compressBatch files).length = files.length := by
  refine ⟨rfl, rfl, rfl, fun f rest => rfl, fun files => ?_⟩
  induction files with
  | nil => rfl
  | cons f rest ih => simp [compressBatch, ih]

/-- C10: sanitize_note_input removes every control character of the class,
returns at most maxLen plus one characters, truncates cleaned text longer
than maxLen to maxLen characters plus one ellipsis, and otherwise returns
the cleaned text unchanged. -/
theorem sanitize_note_input_spec (note : String) (maxLen : Nat) (_hpos : 0 < maxLen) :
    (∀ c ∈ (sanitize_note_input note maxLen).data, isCtrlChar c = false) ∧
    (sanitize_note_input note maxLen).data.length ≤ maxLen + 1 ∧
    (maxLen < (note.data.filter (fun c => !(isCtrlChar c))).length →
      sanitize_note_input note maxLen =
        String.mk ((note.data.filter (fun c => !(isCtrlChar c))).take maxLen ++ ['…'])) ∧
    ((note.data.filter (fun c => !(isCtrlChar c))).length ≤ maxLen →
      sanitize_note_input note maxLen =
        String.mk (note.data.filter (fun c => !(isCtrlChar c)))) := by
  unfold sanitize_note_input
  by_cases h : maxLen < (note.data.filter (fun c => !(isCtrlChar c))).length
  · rw [if_pos h]
    refine ⟨?_, ?_, fun _ => rfl, fun hle => absurd h (not_lt.mpr hle)⟩
    · intro c hc
      have hc2 : c ∈ (note.data.filter (fun c => !(isCtrlChar c))).take maxLen ++ ['…'] := hc
      rcases List.mem_append.mp hc2 with hm | hm
      · have := List.mem_filter.mp (List.take_subset _ _ hm)
        simpa using this.2
      · rw [List.mem_singleton.mp hm]
        decide
    · have hlen : ((note.data.filter (fun c => !(isCtrlChar c))).take maxLen ++ ['…']).length =
          min maxLen (note.data.filter (fun c => !(isCtrlChar c))).length + 1 := by
        simp
      have : (String.mk ((note.data.filter (fun c => !(isCtrlChar c))).take maxLen ++ ['…'])).data.length =
          min maxLen (note.data.filter (fun c => !(isCtrlChar c))).length + 1 := hlen
      rw [this]
      omega
  · rw [if_neg h]
    refine ⟨?_, ?_, fun hlt => absurd hlt h, fun _ => rfl⟩
    · intro c hc
      have hc2 : c ∈ note.data.filter (fun c => !(isCtrlChar c)) := hc
      have := List.mem_filter.mp hc2
      simpa using this.2
    · have hle : (note.data.filter (fun c => !(isCtrlChar c))).length ≤ maxLen := not_lt.mp h
      have : (String.mk (note.data.filter (fun c => !(isCtrlChar c)))).data.length =
          (note.data.filter (fun c => !(isCtrlChar c))).length := rfl
      rw [this]
      omega

/-- Witness for the C10 theorem: a note with an embedded NUL and limit 2
is cleaned and truncated to two characters plus the ellipsis. -/
theorem sanitize_note_input_spec_witness :
    sanitize_note_input "a\x00bcd" 2 =
      String.mk ((("a\x00bcd" : String).data.filter (fun c => !(isCtrlChar c))).take 2 ++ ['…']) :=
  (sanitize_note_input_spec "a\x00bcd" 2 (by decide)).2.2.1 (by decide)
